import Mathlib

/-!
# Spatial grid aggregation and caching engine — verification

A shallow embedding of the grid-aggregation core of the biodiversity
visualisation server (`server.js`): the discretizer (`cellKeyFromLatLng`,
`boundsFromKey`), the streaming aggregator of `computeGlobalGrid`, the
single-flight guarded cache refresh, the on-demand bounded aggregator of
the `/api/coords/grid` handler, and the cache lookup of
`/api/coords/grid/cached`.

Modelling conventions:
* JavaScript numbers are modelled by `ℚ`.  A coordinate field whose value
  is not a number (the `typeof lat !== 'number'` check on the projected
  document) is modelled by `none`.  The claims under study do not depend
  on float rounding, only on exact floor arithmetic, comparisons and
  clamping, which `ℚ` captures exactly.
* The JS string cell key `"i:j"` is in bijection with the pair `(i, j)`
  of integers, so cell keys are modelled by `ℤ × ℤ` directly.
* A JS `Map` is modelled by an insertion-ordered association list:
  `set` on a present key updates in place, on an absent key appends.
* The `for await … of cursor` loop is modelled by structural recursion
  over a `List (Option Record)`: a `none` element is the point at which
  the cursor raises (connection lost mid-stream); awaiting it aborts the
  whole run before the loop body executes.
* `updatedAt` (a wall-clock timestamp) and the periodic progress logging
  are operational and not modelled.
-/

/-- A grid cell key, the pair `(i, j)` encoded in JS as the string `"i:j"`. -/
abbrev CellKey := ℤ × ℤ

/-- The source's `cellKeyFromLatLng` (server.js lines 66-70):
`i = Math.floor((lat + 90) / sizeDeg)`, `j = Math.floor((lng + 180) / sizeDeg)`. -/
def cellKeyFromLatLng (sizeDeg lat lng : ℚ) : CellKey :=
  (⌊(lat + 90) / sizeDeg⌋, ⌊(lng + 180) / sizeDeg⌋)

/-- The source's `boundsFromKey` (server.js lines 71-77): reconstructs
`[[lat0, lng0], [lat0 + sizeDeg, lng0 + sizeDeg]]` from a key. -/
def boundsFromKey (sizeDeg : ℚ) (k : CellKey) : (ℚ × ℚ) × (ℚ × ℚ) :=
  let lat0 : ℚ := -90 + (k.1 : ℚ) * sizeDeg
  let lng0 : ℚ := -180 + (k.2 : ℚ) * sizeDeg
  ((lat0, lng0), (lat0 + sizeDeg, lng0 + sizeDeg))

/-- A record as projected by the Mongo queries of the aggregation paths:
`decimalLatitude` / `decimalLongitude` (`none` models a value whose JS
`typeof` is not `'number'`) and, for the spec's richness mode, an identity
string (`""` models a missing `scientificName`). -/
structure Record where
  lat : Option ℚ
  lng : Option ℚ
  scientificName : String := ""
deriving Repr, DecidableEq

/-- The JS `Map` of `computeGlobalGrid` / the grid handler: an
insertion-ordered association list from cell key to count.
`map.set(key, (map.get(key) || 0) + 1)` updates a present key in place and
appends an absent one. -/
def mapInc : List (CellKey × ℕ) → CellKey → List (CellKey × ℕ)
  | [], k => [(k, 1)]
  | (k', c) :: rest, k =>
      if k' = k then (k', c + 1) :: rest else (k', c) :: mapInc rest k

/-- Loop state of a streaming aggregation run: the `scanned` counter and the
per-cell count map. -/
structure AggState where
  scanned : ℕ
  cells : List (CellKey × ℕ)
deriving Repr, DecidableEq

/-- The `for await (const doc of cursor)` loop of `computeGlobalGrid`
(server.js lines 83-101): `scanned++`; break once `scanned > cap`; skip
records whose coordinates are not numbers; otherwise bump the cell count.
A `none` stream element is the cursor raising (connection lost): the run
aborts with no state (`none`), mirroring the exception propagating out of
the loop. -/
def aggLoop (cap : ℕ) (sizeDeg : ℚ) :
    List (Option Record) → AggState → Option AggState
  | [], st => some st
  | none :: _, _ => none
  | some r :: rest, st =>
      let scanned := st.scanned + 1
      if cap < scanned then some { st with scanned := scanned }
      else
        match r.lat, r.lng with
        | some lat, some lng =>
            aggLoop cap sizeDeg rest
              { scanned := scanned,
                cells := mapInc st.cells (cellKeyFromLatLng sizeDeg lat lng) }
        | _, _ => aggLoop cap sizeDeg rest { st with scanned := scanned }

/-- One materialized cell of a grid snapshot:
`{ key, count, bounds: boundsFromKey(key) }`. -/
structure CellResult where
  key : CellKey
  count : ℕ
  bounds : (ℚ × ℚ) × (ℚ × ℚ)
deriving Repr, DecidableEq

/-- The source's `cells.sort((a,b) => b.count - a.count)`: descending by count.  The JS
engine's sort algorithm is modelled by insertion sort; the claims depend
only on the resulting multiset of cells. -/
def sortCells (l : List CellResult) : List CellResult :=
  List.insertionSort (fun a b => b.count ≤ a.count) l

/-- A computed grid result: `{ cells, scanned, capped }` (`updatedAt` not
modelled). -/
structure Snapshot where
  cells : List CellResult
  scanned : ℕ
  capped : Bool
deriving Repr, DecidableEq

/-- Materialization of a finished aggregation state (server.js lines
102-107 and 500-513): one `CellResult` per populated key, sorted
descending by count; `capped` is computed by the caller as
`scanned >= cap`. -/
def mkSnapshot (sizeDeg : ℚ) (st : AggState) (capped : Bool) : Snapshot :=
  { cells := sortCells (st.cells.map fun p => ⟨p.1, p.2, boundsFromKey sizeDeg p.1⟩),
    scanned := st.scanned,
    capped := capped }

/-- The `gridCache` JS `Map`, keyed in JS by the canonical decimal string
`String(sizeDeg)`.  `String` is injective on JS numbers, so the cache is
modelled keyed by the numeric value itself.  `set` replaces in place or
appends. -/
def cacheSet : List (ℚ × Snapshot) → ℚ → Snapshot → List (ℚ × Snapshot)
  | [], k, v => [(k, v)]
  | (k', v') :: rest, k, v =>
      if k' = k then (k', v) :: rest else (k', v') :: cacheSet rest k v

/-- Lookup `gridCache.get(key)`. -/
def cacheGet : List (ℚ × Snapshot) → ℚ → Option Snapshot
  | [], _ => none
  | (k', v') :: rest, k => if k' = k then some v' else cacheGet rest k

/-- Module-level mutable state of the server: the in-flight flag
`isComputingCache` and the `gridCache` map. -/
structure Engine where
  isComputingCache : Bool
  gridCache : List (ℚ × Snapshot)
deriving Repr, DecidableEq

/-- The source's `computeGlobalGrid(sizeDeg, cap)` (server.js lines 40-117) as a state
transformer on `Engine`, returning the JS function's boolean result.
`conn = none` models `getCollection()` returning nothing (provider
unavailable); a stream with a `none` element models the cursor raising
mid-run, caught by the `catch` (return `false`) with the `finally`
clearing the flag.  On success the snapshot (with
`capped: scanned >= cap`) is stored under the cell-size key. -/
def computeGlobalGrid (conn : Option (List (Option Record))) (sizeDeg : ℚ)
    (cap : ℕ) (e : Engine) : Bool × Engine :=
  match conn with
  | none => (false, e)
  | some stream =>
      if e.isComputingCache then (false, e)
      else
        match aggLoop cap sizeDeg stream ⟨0, []⟩ with
        | none => (false, { e with isComputingCache := false })
        | some st =>
            (true,
              { isComputingCache := false,
                gridCache := cacheSet e.gridCache sizeDeg
                  (mkSnapshot sizeDeg st (decide (cap ≤ st.scanned))) })

/-- Leading and trailing JS whitespace removal on a character list
(the `String.prototype.trim` step inside `Number(string)`). -/
def trimChars (l : List Char) : List Char :=
  ((l.dropWhile Char.isWhitespace).reverse.dropWhile Char.isWhitespace).reverse

/-- Value of a digit string, most significant first. -/
def digitsToNat (l : List Char) : ℕ :=
  l.foldl (fun a c => a * 10 + (c.toNat - 48)) 0

/-- An unsigned decimal literal: digits, with an optional single point
(`"25"`, `"0.25"`, `".5"`, `"5."`).  Anything else is `none`. -/
def parseUnsigned (l : List Char) : Option ℚ :=
  let ip := l.takeWhile (fun c => c ≠ '.')
  match l.dropWhile (fun c => c ≠ '.') with
  | [] =>
      if ip ≠ [] ∧ ip.all Char.isDigit then some (digitsToNat ip) else none
  | _ :: fp =>
      if (ip ≠ [] ∨ fp ≠ []) ∧ ip.all Char.isDigit ∧ fp.all Char.isDigit then
        some ((digitsToNat ip : ℚ) + (digitsToNat fp : ℚ) / (10 : ℚ) ^ fp.length)
      else none

/-- A signed decimal literal. -/
def parseDecimal : List Char → Option ℚ
  | '-' :: rest => (parseUnsigned rest).map (fun q => -q)
  | '+' :: rest => parseUnsigned rest
  | l => parseUnsigned l

/-- The JS `Number(string)` conversion, on the decimal-literal fragment the
size and cap query parameters use: surrounding whitespace is ignored, the
empty (or all-whitespace) string converts to `0`, a signed decimal literal
to its value, and anything else to NaN, modelled as `none`.  (The exponent,
hex, and `Infinity` forms of `Number` are outside the model; `none` stands
for any value failing the `Number.isFinite` test downstream.) -/
def jsNumber (s : String) : Option ℚ :=
  let t := trimChars s.toList
  if t = [] then some 0 else parseDecimal t

/-- The conversion `Number(q ?? d)` for a query parameter `q` with JS default `d`:
an absent parameter takes the default. -/
def numOr (q : Option String) (d : ℚ) : Option ℚ :=
  match q with
  | none => some d
  | some s => jsNumber s

/-- The effective cell size of the `/api/coords/grid` handler (server.js
lines 392-396): `Number(req.query.sizeDeg ?? 1.0)`, falling back to `1.0`
when not finite or not positive, then clamped by
`Math.max(0.005, Math.min(sizeDeg, 10))`. -/
def gridSizeDeg (q : Option String) : ℚ :=
  let v : ℚ :=
    match numOr q 1 with
    | none => 1
    | some n => if n ≤ 0 then 1 else n
  max 0.005 (min v 10)

/-- The effective scan cap of the `/api/coords/grid` handler (server.js
lines 399-400): `Number(req.query.maxDocs ?? 35000000)`, falling back to
`35000000` when not finite or not positive. -/
def gridMaxDocs (q : Option String) : ℚ :=
  match numOr q 35000000 with
  | none => 35000000
  | some n => if n ≤ 0 then 35000000 else n

/-- A normalized bounding box. -/
structure BBox where
  south : ℚ
  west : ℚ
  north : ℚ
  east : ℚ
deriving Repr, DecidableEq

/-- Query parameters of the `/api/coords/grid` handler that the engine
consumes (the taxonomy and year filters are applied by the external record
store and reach the engine only through the stream it is handed). -/
structure GridQuery where
  south : Option String := none
  west : Option String := none
  north : Option String := none
  east : Option String := none
  sizeDeg : Option String := none
  maxDocs : Option String := none
deriving Repr, DecidableEq

/-- The source's `hasBbox` check (server.js lines 386-390): all four edges finite, with
`south <= north` and `west <= east`; defaults `-90, -180, 90, 180`. -/
def parseBBox (q : GridQuery) : Option BBox :=
  match numOr q.south (-90), numOr q.west (-180),
      numOr q.north 90, numOr q.east 180 with
  | some s, some w, some n, some e =>
      if s ≤ n ∧ w ≤ e then some ⟨s, w, n, e⟩ else none
  | _, _, _, _ => none

/-- The `for await` loop of the `/api/coords/grid` handler (server.js lines
477-498): like the global loop, with a float cap (`maxDocs`) and, when a
bbox is present, an in-process `lat < south || lat > north || lng < west ||
lng > east` skip. -/
def boundedLoop (maxDocs : ℚ) (sizeDeg : ℚ) (bbox : Option BBox) :
    List (Option Record) → AggState → Option AggState
  | [], st => some st
  | none :: _, _ => none
  | some r :: rest, st =>
      let scanned := st.scanned + 1
      if maxDocs < (scanned : ℚ) then some { st with scanned := scanned }
      else
        match r.lat, r.lng with
        | some lat, some lng =>
            let accept :=
              match bbox with
              | none => true
              | some b =>
                  decide (¬(lat < b.south ∨ b.north < lat ∨
                    lng < b.west ∨ b.east < lng))
            if accept then
              boundedLoop maxDocs sizeDeg bbox rest
                { scanned := scanned,
                  cells := mapInc st.cells (cellKeyFromLatLng sizeDeg lat lng) }
            else boundedLoop maxDocs sizeDeg bbox rest { st with scanned := scanned }
        | _, _ => boundedLoop maxDocs sizeDeg bbox rest { st with scanned := scanned }

/-- Outcome of the `/api/coords/grid` handler: a 500 error (collection
unavailable, or the cursor raising) or the JSON body's `sizeDeg` and grid
fields. -/
inductive GridOutcome where
  | error : GridOutcome
  | ok : ℚ → Snapshot → GridOutcome
deriving Repr, DecidableEq

/-- The `/api/coords/grid` handler (server.js lines 379-518) as a state
transformer on `Engine`.  It runs a request-scoped count-mode aggregation
and answers from it directly; the engine state is threaded through to make
the frame property statable. -/
def coordsGridHandler (q : GridQuery) (conn : Option (List (Option Record)))
    (e : Engine) : GridOutcome × Engine :=
  match conn with
  | none => (.error, e)
  | some stream =>
      let sizeDeg := gridSizeDeg q.sizeDeg
      let maxDocs := gridMaxDocs q.maxDocs
      match boundedLoop maxDocs sizeDeg (parseBBox q) stream ⟨0, []⟩ with
      | none => (.error, e)
      | some st =>
          (.ok sizeDeg
            (mkSnapshot sizeDeg st (decide (maxDocs ≤ (st.scanned : ℚ)))), e)

/-- Response of the `/api/coords/grid/cached` handler: a cache hit
`{ cached: true, sizeDeg, ...item }` or a miss
`{ cached: false, computing, sizeDeg }`. -/
inductive CachedResponse where
  | hit : ℚ → Snapshot → CachedResponse
  | miss : Bool → ℚ → CachedResponse
deriving Repr, DecidableEq

/-- The `sizeDeg` field reported by either form of the cached response. -/
def CachedResponse.sizeDeg : CachedResponse → ℚ
  | .hit s _ => s
  | .miss _ s => s

/-- The lookup key of the `/api/coords/grid/cached` handler (server.js
lines 523-524): `String(Number.isFinite(sizeDeg) && sizeDeg > 0 ? sizeDeg
: 0.25)` for `sizeDeg = Number(req.query.sizeDeg ?? 0.25)`.  As for
`gridCache`, the canonical string key is modelled by the numeric value it
canonically prints. -/
def cachedKey (q : Option String) : ℚ :=
  match numOr q 0.25 with
  | none => 0.25
  | some v => if 0 < v then v else 0.25

/-- The `/api/coords/grid/cached` handler (server.js lines 522-535). -/
def cachedHandler (q : Option String) (e : Engine) : CachedResponse :=
  let key := cachedKey q
  match cacheGet e.gridCache key with
  | some item => .hit key item
  | none => .miss e.isComputingCache key

/-- Modelled from the spec: identity normalization for richness mode (spec
§4.2, "a normalized string (trimmed, case-folded)").  The richness-mode
aggregator and hasher are described by the spec but are not part of the
code under src/ (the only richness computation there is the Mongo
`$addToSet` pipeline of `/api/correlation/latitude-diversite`). -/
def normalizeIdentity (s : String) : String :=
  String.mk ((trimChars s.toList).map Char.toLower)

/-- Per-cell distinct-identity sets of a richness run: insertion-ordered
association list from cell key to the list of hashed identities seen,
acting as a set. -/
structure RichState where
  scanned : ℕ
  cells : List (CellKey × List ℕ)
deriving Repr, DecidableEq

/-- Set insertion: a no-op when the hashed identity is already present. -/
def setInsert (s : List ℕ) (h : ℕ) : List ℕ :=
  if h ∈ s then s else s ++ [h]

/-- Insert a hashed identity into the set of one cell, creating the cell
on first contact. -/
def richInsert : List (CellKey × List ℕ) → CellKey → ℕ → List (CellKey × List ℕ)
  | [], k, h => [(k, [h])]
  | (k', s) :: rest, k, h =>
      if k' = k then (k', setInsert s h) :: rest
      else (k', s) :: richInsert rest k h

/-- Modelled from the spec: the richness-mode streaming aggregator (spec
§4.3), absent from src/.  Per the spec's words: consume records under the
scan cap exactly as in count mode; skip records with non-numeric
coordinates and records whose identity is empty after normalization (both
still count toward `scanned`); otherwise insert the hashed normalized
identity into the per-cell set (a no-op if already present).  The hash is
a parameter (spec §4.2: "exact bit arrangement is an implementation
choice, not a contract"). -/
def richnessLoop (hash : String → ℕ) (cap : ℕ) (sizeDeg : ℚ) :
    List Record → RichState → RichState
  | [], st => st
  | r :: rest, st =>
      let scanned := st.scanned + 1
      if cap < scanned then { st with scanned := scanned }
      else
        match r.lat, r.lng with
        | some lat, some lng =>
            let nm := normalizeIdentity r.scientificName
            if nm = "" then
              richnessLoop hash cap sizeDeg rest { st with scanned := scanned }
            else
              richnessLoop hash cap sizeDeg rest
                { scanned := scanned,
                  cells := richInsert st.cells
                    (cellKeyFromLatLng sizeDeg lat lng) (hash nm) }
        | _, _ => richnessLoop hash cap sizeDeg rest { st with scanned := scanned }

/-- Total metric mass of a count map. -/
def cellSum (m : List (CellKey × ℕ)) : ℕ :=
  (m.map Prod.snd).sum

/-- C5: round-trip containment.  For every latitude, longitude and every
`size > 0`, the rectangle reconstructed by `boundsFromKey` from
`cellKeyFromLatLng lat lng` contains the point:
`lat0 ≤ lat < lat0 + size` and `lng0 ≤ lng < lng0 + size`. -/
theorem cellBounds_cellKey_contains (lat lng size : ℚ) (hsize : 0 < size) :
    (boundsFromKey size (cellKeyFromLatLng size lat lng)).1.1 ≤ lat ∧
    lat < (boundsFromKey size (cellKeyFromLatLng size lat lng)).1.1 + size ∧
    (boundsFromKey size (cellKeyFromLatLng size lat lng)).1.2 ≤ lng ∧
    lng < (boundsFromKey size (cellKeyFromLatLng size lat lng)).1.2 + size := by
  have hlat₁ : (⌊(lat + 90) / size⌋ : ℚ) * size ≤ lat + 90 := by
    rw [← le_div_iff₀ hsize]
    exact Int.floor_le _
  have hlat₂ : lat + 90 < ((⌊(lat + 90) / size⌋ : ℚ) + 1) * size := by
    rw [← div_lt_iff₀ hsize]
    exact Int.lt_floor_add_one _
  have hlng₁ : (⌊(lng + 180) / size⌋ : ℚ) * size ≤ lng + 180 := by
    rw [← le_div_iff₀ hsize]
    exact Int.floor_le _
  have hlng₂ : lng + 180 < ((⌊(lng + 180) / size⌋ : ℚ) + 1) * size := by
    rw [← div_lt_iff₀ hsize]
    exact Int.lt_floor_add_one _
  refine ⟨?_, ?_, ?_, ?_⟩ <;>
    simp only [boundsFromKey, cellKeyFromLatLng] <;> nlinarith

/-- Witness for C5 at `lat = -10.1`, `lng = -50.2`, `size = 0.25`. -/
theorem cellBounds_cellKey_contains_witness :
    (0 : ℚ) < 0.25 ∧
      ((boundsFromKey 0.25 (cellKeyFromLatLng 0.25 (-10.1) (-50.2))).1.1 ≤
          -10.1 ∧
        (-10.1 : ℚ) <
          (boundsFromKey 0.25 (cellKeyFromLatLng 0.25 (-10.1) (-50.2))).1.1 +
            0.25 ∧
        (boundsFromKey 0.25 (cellKeyFromLatLng 0.25 (-10.1) (-50.2))).1.2 ≤
          -50.2 ∧
        (-50.2 : ℚ) <
          (boundsFromKey 0.25 (cellKeyFromLatLng 0.25 (-10.1) (-50.2))).1.2 +
            0.25) :=
  ⟨by norm_num, cellBounds_cellKey_contains (-10.1) (-50.2) 0.25 (by norm_num)⟩

theorem cacheGet_cacheSet (m : List (ℚ × Snapshot)) (k : ℚ) (v : Snapshot) :
    cacheGet (cacheSet m k v) k = some v := by
  induction m with
  | nil => simp [cacheSet, cacheGet]
  | cons p rest ih =>
      by_cases h : p.1 = k <;> simp [cacheSet, cacheGet, h, ih]

/-- On an error-free stream the aggregation loop always completes. -/
theorem aggLoop_map_some_isSome (cap : ℕ) (sizeDeg : ℚ) :
    ∀ (records : List Record) (st : AggState),
      (aggLoop cap sizeDeg (records.map some) st).isSome := by
  intro records
  induction records with
  | nil => intro st; simp [aggLoop]
  | cons r rest ih =>
      intro st
      simp only [List.map_cons, aggLoop]
      split
      · rfl
      · cases hl : r.lat <;> cases hg : r.lng <;> simp [ih]

/-- Entering the loop with `scanned ≤ cap`, any completed run ends with
`scanned ≤ cap + 1`: the loop breaks at the first record that takes
`scanned` past the cap. -/
theorem aggLoop_scanned_le (cap : ℕ) (sizeDeg : ℚ) :
    ∀ (stream : List (Option Record)) (st st' : AggState),
      st.scanned ≤ cap → aggLoop cap sizeDeg stream st = some st' →
      st'.scanned ≤ cap + 1 := by
  intro stream
  induction stream with
  | nil =>
      intro st st' hle h
      injection h with h
      subst h
      omega
  | cons item rest ih =>
      intro st st' hle h
      cases item with
      | none => simp [aggLoop] at h
      | some r =>
          simp only [aggLoop] at h
          split at h
          · injection h with h
            subst h
            simp only
            omega
          · rename_i hnb
            cases hl : r.lat <;> cases hg : r.lng <;>
              simp only [hl, hg] at h <;>
              exact ih _ st' (by simp only; omega) h

/-- A stream longer than the cap ends with `scanned = cap + 1` exactly. -/
theorem aggLoop_scanned_of_long (cap : ℕ) (sizeDeg : ℚ) :
    ∀ (records : List Record) (st st' : AggState),
      st.scanned ≤ cap → cap < st.scanned + records.length →
      aggLoop cap sizeDeg (records.map some) st = some st' →
      st'.scanned = cap + 1 := by
  intro records
  induction records with
  | nil =>
      intro st st' hle hlong h
      simp only [List.length_nil] at hlong
      omega
  | cons r rest ih =>
      intro st st' hle hlong h
      simp only [List.length_cons] at hlong
      simp only [List.map_cons, aggLoop] at h
      split at h
      · injection h with h
        subst h
        simp only
        omega
      · rename_i hnb
        cases hl : r.lat <;> cases hg : r.lng <;>
          simp only [hl, hg] at h <;>
          exact ih _ st' (by simp only; omega) (by simp only; omega) h

/-- C1: for every input stream and cap `> 0`, the background aggregation
stops at the first record whose scan takes `scanned` past `cap`, so the
cached snapshot has `scanned ≤ cap + 1` (exactly `cap + 1` when the
stream holds more than `cap` records) and its `capped` flag equals
`scanned >= cap`. -/
theorem globalGrid_scan_cap (cap : ℕ) (sizeDeg : ℚ) (records : List Record)
    (e : Engine) (hcap : 0 < cap) (hidle : e.isComputingCache = false) :
    ∃ snap : Snapshot,
      cacheGet ((computeGlobalGrid (some (records.map some)) sizeDeg cap
        e).2).gridCache sizeDeg = some snap ∧
      snap.scanned ≤ cap + 1 ∧
      (cap < records.length → snap.scanned = cap + 1) ∧
      snap.capped = decide (cap ≤ snap.scanned) := by
  obtain ⟨st, hst⟩ := Option.isSome_iff_exists.mp
    (aggLoop_map_some_isSome cap sizeDeg records ⟨0, []⟩)
  refine ⟨mkSnapshot sizeDeg st (decide (cap ≤ st.scanned)), ?_, ?_, ?_, ?_⟩
  · simp only [computeGlobalGrid, hidle, Bool.false_eq_true, if_false, hst]
    exact cacheGet_cacheSet _ _ _
  · simpa [mkSnapshot] using
      aggLoop_scanned_le cap sizeDeg (records.map some) ⟨0, []⟩ st
        (Nat.zero_le cap) hst
  · intro hlong
    simpa [mkSnapshot] using
      aggLoop_scanned_of_long cap sizeDeg records ⟨0, []⟩ st
        (Nat.zero_le cap) (by simpa using hlong) hst
  · simp [mkSnapshot]

/-- Witness for C1: `cap = 3` on a 10-record stream, idle engine. -/
theorem globalGrid_scan_cap_witness :
    0 < 3 ∧ (Engine.mk false []).isComputingCache = false ∧
    ∃ snap : Snapshot,
      cacheGet ((computeGlobalGrid
        (some ((List.replicate 10
          ({ lat := some 1, lng := some 2 } : Record)).map some)) 1 3
        (Engine.mk false [])).2).gridCache 1 = some snap ∧
      snap.scanned ≤ 3 + 1 ∧
      (3 < (List.replicate 10
        ({ lat := some 1, lng := some 2 } : Record)).length →
        snap.scanned = 3 + 1) ∧
      snap.capped = decide (3 ≤ snap.scanned) :=
  ⟨by decide, rfl,
    globalGrid_scan_cap 3 1
      (List.replicate 10 ({ lat := some 1, lng := some 2 } : Record))
      (Engine.mk false []) (by decide) rfl⟩

/-- C3: a consumed record whose latitude or longitude is not a number is
skipped for accumulation — the cell map is left exactly as it was — but
still increments `scanned` by one (also when it is the record at which
the loop breaks). -/
theorem invalid_record_skipped (cap : ℕ) (sizeDeg : ℚ) (r : Record)
    (rest : List (Option Record)) (st : AggState)
    (hinv : r.lat = none ∨ r.lng = none) :
    aggLoop cap sizeDeg (some r :: rest) st =
      if cap < st.scanned + 1 then some { st with scanned := st.scanned + 1 }
      else aggLoop cap sizeDeg rest { st with scanned := st.scanned + 1 } := by
  rcases hinv with h | h
  · cases hg : r.lng <;> simp [aggLoop, h, hg]
  · cases hl : r.lat <;> simp [aggLoop, h, hl]

/-- Witness for C3: a latitude-less record on an idle state. -/
theorem invalid_record_skipped_witness :
    (({ lat := none, lng := some 5 } : Record).lat = none ∨
      ({ lat := none, lng := some 5 } : Record).lng = none) ∧
    aggLoop 10 1 [some ({ lat := none, lng := some 5 } : Record)]
        ⟨0, []⟩ =
      if 10 < (⟨0, []⟩ : AggState).scanned + 1 then
        some { (⟨0, []⟩ : AggState) with
          scanned := (⟨0, []⟩ : AggState).scanned + 1 }
      else aggLoop 10 1 [] { (⟨0, []⟩ : AggState) with
        scanned := (⟨0, []⟩ : AggState).scanned + 1 } :=
  ⟨Or.inl rfl,
    invalid_record_skipped 10 1 ({ lat := none, lng := some 5 } : Record)
      [] ⟨0, []⟩ (Or.inl rfl)⟩

/-- C4: single-flight.  A refresh trigger arriving while the in-flight
flag is set returns `false` immediately, leaving the engine (cache
included) untouched and independent of the stream; and a run that does
start — whether the cursor completes or raises — ends with the flag
cleared, so a later trigger can run. -/
theorem singleFlight_guard (conn : Option (List (Option Record)))
    (sizeDeg : ℚ) (cap : ℕ) (e : Engine) :
    (e.isComputingCache = true →
      computeGlobalGrid conn sizeDeg cap e = (false, e)) ∧
    (e.isComputingCache = false →
      ((computeGlobalGrid conn sizeDeg cap e).2).isComputingCache = false) := by
  constructor
  · intro hbusy
    cases conn with
    | none => rfl
    | some stream => simp [computeGlobalGrid, hbusy]
  · intro hidle
    cases conn with
    | none => simpa [computeGlobalGrid] using hidle
    | some stream =>
        simp only [computeGlobalGrid, hidle, Bool.false_eq_true, if_false]
        cases h : aggLoop cap sizeDeg stream ⟨0, []⟩ <;> simp [h]

/-- Witness for C4: a busy engine skips; an idle engine ends idle. -/
theorem singleFlight_guard_witness :
    computeGlobalGrid (some []) 1 5 (Engine.mk true []) =
      (false, Engine.mk true []) ∧
    ((computeGlobalGrid (some []) 1 5 (Engine.mk false [])).2).isComputingCache
      = false :=
  ⟨(singleFlight_guard (some []) 1 5 (Engine.mk true [])).1 rfl,
    (singleFlight_guard (some []) 1 5 (Engine.mk false [])).2 rfl⟩

/-- C7: failure atomicity of the background refresh.  If the provider is
unavailable the run returns `false` with the engine untouched; if the
cursor raises mid-run the run returns `false` and the cache is exactly
what it was before — no partial snapshot is stored. -/
theorem refresh_failure_atomic (sizeDeg : ℚ) (cap : ℕ)
    (stream : List (Option Record)) (e : Engine)
    (hidle : e.isComputingCache = false) :
    computeGlobalGrid none sizeDeg cap e = (false, e) ∧
    (aggLoop cap sizeDeg stream ⟨0, []⟩ = none →
      (computeGlobalGrid (some stream) sizeDeg cap e).1 = false ∧
      ((computeGlobalGrid (some stream) sizeDeg cap e).2).gridCache =
        e.gridCache) := by
  refine ⟨rfl, fun hfail => ?_⟩
  simp [computeGlobalGrid, hidle, hfail]

/-- Witness for C7: a cursor that raises on its first fetch. -/
theorem refresh_failure_atomic_witness :
    computeGlobalGrid none 1 5 (Engine.mk false []) =
      (false, Engine.mk false []) ∧
    (computeGlobalGrid (some [none]) 1 5 (Engine.mk false [])).1 = false ∧
    ((computeGlobalGrid (some [none]) 1 5 (Engine.mk false [])).2).gridCache =
      (Engine.mk false []).gridCache :=
  ⟨(refresh_failure_atomic 1 5 [none] (Engine.mk false []) rfl).1,
    (refresh_failure_atomic 1 5 [none] (Engine.mk false []) rfl).2 rfl⟩

theorem mapInc_cellSum (m : List (CellKey × ℕ)) (k : CellKey) :
    cellSum (mapInc m k) = cellSum m + 1 := by
  induction m with
  | nil => simp [mapInc, cellSum]
  | cons p rest ih =>
      obtain ⟨k', c⟩ := p
      by_cases h : k' = k <;> simp [mapInc, h, cellSum] at ih ⊢ <;> omega

theorem mapInc_pos (m : List (CellKey × ℕ)) (k : CellKey)
    (h : ∀ p ∈ m, 1 ≤ p.2) : ∀ p ∈ mapInc m k, 1 ≤ p.2 := by
  induction m with
  | nil =>
      intro p hp
      simp [mapInc] at hp
      simp [hp]
  | cons q rest ih =>
      obtain ⟨k', c⟩ := q
      intro p hp
      by_cases hk : k' = k
      · simp only [mapInc, if_pos hk] at hp
        cases hp with
        | head => simp
        | tail _ hp => exact h p (List.mem_cons_of_mem _ hp)
      · simp only [mapInc, if_neg hk] at hp
        cases hp with
        | head => exact h _ (List.mem_cons_self _ _)
        | tail _ hp => exact ih (fun q hq => h q (List.mem_cons_of_mem _ hq)) p hp

/-- Invariant of the count-mode loop: metric mass never exceeds `scanned`
and every materialized cell holds at least one record. -/
theorem aggLoop_cellSum_le (cap : ℕ) (sizeDeg : ℚ) :
    ∀ (stream : List (Option Record)) (st st' : AggState),
      aggLoop cap sizeDeg stream st = some st' →
      cellSum st.cells ≤ st.scanned → (∀ p ∈ st.cells, 1 ≤ p.2) →
      cellSum st'.cells ≤ st'.scanned ∧ ∀ p ∈ st'.cells, 1 ≤ p.2 := by
  intro stream
  induction stream with
  | nil =>
      intro st st' h h1 h2
      injection h with h
      subst h
      exact ⟨h1, h2⟩
  | cons item rest ih =>
      intro st st' h h1 h2
      cases item with
      | none => simp [aggLoop] at h
      | some r =>
          simp only [aggLoop] at h
          split at h
          · injection h with h
            subst h
            exact ⟨by simp only; omega, h2⟩
          · cases hl : r.lat <;> cases hg : r.lng <;>
              simp only [hl, hg] at h
            · exact ih _ st' h (by simp only; omega) h2
            · exact ih _ st' h (by simp only; omega) h2
            · exact ih _ st' h (by simp only; omega) h2
            · refine ih _ st' h ?_ ?_
              · simp only [mapInc_cellSum]
                omega
              · exact mapInc_pos _ _ h2

/-- Invariant of the bounded (on-demand) loop: same as for the global
loop, with the bbox skip. -/
theorem boundedLoop_cellSum_le (maxDocs : ℚ) (sizeDeg : ℚ) (bbox : Option BBox) :
    ∀ (stream : List (Option Record)) (st st' : AggState),
      boundedLoop maxDocs sizeDeg bbox stream st = some st' →
      cellSum st.cells ≤ st.scanned → (∀ p ∈ st.cells, 1 ≤ p.2) →
      cellSum st'.cells ≤ st'.scanned ∧ ∀ p ∈ st'.cells, 1 ≤ p.2 := by
  intro stream
  induction stream with
  | nil =>
      intro st st' h h1 h2
      injection h with h
      subst h
      exact ⟨h1, h2⟩
  | cons item rest ih =>
      intro st st' h h1 h2
      cases item with
      | none => simp [boundedLoop] at h
      | some r =>
          simp only [boundedLoop] at h
          split at h
          · injection h with h
            subst h
            exact ⟨by simp only; omega, h2⟩
          · cases hl : r.lat <;> cases hg : r.lng <;>
              simp only [hl, hg] at h
            · exact ih _ st' h (by simp only; omega) h2
            · exact ih _ st' h (by simp only; omega) h2
            · exact ih _ st' h (by simp only; omega) h2
            · split at h
              · refine ih _ st' h ?_ ?_
                · simp only [mapInc_cellSum]
                  omega
                · exact mapInc_pos _ _ h2
              · exact ih _ st' h (by simp only; omega) h2

/-- Materialization preserves the invariants: sorting is a permutation and
each `CellResult.count` is the map's count. -/
theorem mkSnapshot_metrics (sizeDeg : ℚ) (st : AggState) (capped : Bool)
    (h1 : cellSum st.cells ≤ st.scanned) (h2 : ∀ p ∈ st.cells, 1 ≤ p.2) :
    ((mkSnapshot sizeDeg st capped).cells.map CellResult.count).sum ≤
      (mkSnapshot sizeDeg st capped).scanned ∧
    ∀ cell ∈ (mkSnapshot sizeDeg st capped).cells, 1 ≤ cell.count := by
  have hperm :
      List.Perm ((mkSnapshot sizeDeg st capped).cells)
        (st.cells.map fun p =>
          (⟨p.1, p.2, boundsFromKey sizeDeg p.1⟩ : CellResult)) :=
    List.perm_insertionSort _ _
  constructor
  · have hsum := (hperm.map CellResult.count).sum_eq
    rw [hsum]
    simpa [List.map_map, cellSum, Function.comp, mkSnapshot] using h1
  · intro cell hcell
    have := hperm.mem_iff.mp hcell
    obtain ⟨p, hp, rfl⟩ := List.mem_map.mp this
    exact h2 p hp

/-- C10: in every snapshot produced by either aggregation path, the sum of
the cell metrics is at most `scanned`, and every materialized cell has
metric at least 1. -/
theorem snapshot_metric_invariants (sizeDeg : ℚ) (cap : ℕ) (maxDocs : ℚ)
    (bbox : Option BBox) (stream : List (Option Record)) (capped : Bool) :
    (∀ st, aggLoop cap sizeDeg stream ⟨0, []⟩ = some st →
      ((mkSnapshot sizeDeg st capped).cells.map CellResult.count).sum ≤
        (mkSnapshot sizeDeg st capped).scanned ∧
      ∀ cell ∈ (mkSnapshot sizeDeg st capped).cells, 1 ≤ cell.count) ∧
    (∀ st, boundedLoop maxDocs sizeDeg bbox stream ⟨0, []⟩ = some st →
      ((mkSnapshot sizeDeg st capped).cells.map CellResult.count).sum ≤
        (mkSnapshot sizeDeg st capped).scanned ∧
      ∀ cell ∈ (mkSnapshot sizeDeg st capped).cells, 1 ≤ cell.count) := by
  constructor
  · intro st hst
    obtain ⟨h1, h2⟩ := aggLoop_cellSum_le cap sizeDeg stream ⟨0, []⟩ st hst
      (by simp [cellSum]) (by simp)
    exact mkSnapshot_metrics sizeDeg st capped h1 h2
  · intro st hst
    obtain ⟨h1, h2⟩ := boundedLoop_cellSum_le maxDocs sizeDeg bbox stream
      ⟨0, []⟩ st hst (by simp [cellSum]) (by simp)
    exact mkSnapshot_metrics sizeDeg st capped h1 h2

/-- Witness for C10 on a one-record stream, both paths. -/
theorem snapshot_metric_invariants_witness :
    (aggLoop 5 1 [some ({ lat := some 1, lng := some 2 } : Record)]
        ⟨0, []⟩ = some ⟨1, [((91, 182), 1)]⟩ ∧
      ((mkSnapshot 1 ⟨1, [((91, 182), 1)]⟩ true).cells.map
        CellResult.count).sum ≤
        (mkSnapshot 1 ⟨1, [((91, 182), 1)]⟩ true).scanned ∧
      ∀ cell ∈ (mkSnapshot 1 ⟨1, [((91, 182), 1)]⟩ true).cells,
        1 ≤ cell.count) ∧
    (boundedLoop 7 1 none [some ({ lat := some 1, lng := some 2 } : Record)]
        ⟨0, []⟩ = some ⟨1, [((91, 182), 1)]⟩ ∧
      ((mkSnapshot 1 ⟨1, [((91, 182), 1)]⟩ true).cells.map
        CellResult.count).sum ≤
        (mkSnapshot 1 ⟨1, [((91, 182), 1)]⟩ true).scanned ∧
      ∀ cell ∈ (mkSnapshot 1 ⟨1, [((91, 182), 1)]⟩ true).cells,
        1 ≤ cell.count) :=
  ⟨⟨by simp [aggLoop, cellKeyFromLatLng, mapInc],
      (snapshot_metric_invariants 1 5 7 none
        [some ({ lat := some 1, lng := some 2 } : Record)] true).1
        ⟨1, [((91, 182), 1)]⟩ (by simp [aggLoop, cellKeyFromLatLng, mapInc])⟩,
    ⟨by simp [boundedLoop, cellKeyFromLatLng, mapInc],
      (snapshot_metric_invariants 1 5 7 none
        [some ({ lat := some 1, lng := some 2 } : Record)] true).2
        ⟨1, [((91, 182), 1)]⟩ (by simp [boundedLoop, cellKeyFromLatLng, mapInc])⟩⟩

/-- On an error-free stream the bounded loop always completes. -/
theorem boundedLoop_map_some_isSome (maxDocs sizeDeg : ℚ) (bbox : Option BBox) :
    ∀ (records : List Record) (st : AggState),
      (boundedLoop maxDocs sizeDeg bbox (records.map some) st).isSome := by
  intro records
  induction records with
  | nil => intro st; simp [boundedLoop]
  | cons r rest ih =>
      intro st
      simp only [List.map_cons, boundedLoop]
      split
      · rfl
      · cases hl : r.lat <;> cases hg : r.lng <;> simp only
        · exact ih _
        · exact ih _
        · exact ih _
        · split <;> exact ih _

/-- C6: the cell size actually used by the on-demand bounded aggregator
always lies in `[0.005, 10]`; a non-finite or non-positive `sizeDeg`
parameter silently falls back to the default `1.0` (which the clamp leaves
unchanged); and on an error-free stream the handler always produces a
snapshot computed at that clamped size — it never fails on such input. -/
theorem gridSize_clamped (q : Option String) :
    (0.005 ≤ gridSizeDeg q ∧ gridSizeDeg q ≤ 10) ∧
    (∀ s, q = some s →
      jsNumber s = none ∨ (∃ v, jsNumber s = some v ∧ v ≤ 0) →
      gridSizeDeg q = 1) ∧
    (∀ (gq : GridQuery) (records : List Record) (e : Engine),
      gq.sizeDeg = q →
      ∃ snap, (coordsGridHandler gq (some (records.map some)) e).1 =
        GridOutcome.ok (gridSizeDeg q) snap) := by
  refine ⟨⟨le_max_left _ _, max_le (by norm_num) (min_le_right _ _)⟩, ?_, ?_⟩
  · intro s hq h
    subst hq
    rcases h with h | ⟨v, hv, hle⟩
    · simp only [gridSizeDeg, numOr, h]
      norm_num
    · simp only [gridSizeDeg, numOr, hv, if_pos hle]
      norm_num
  · intro gq records e hq
    subst hq
    obtain ⟨st, hst⟩ := Option.isSome_iff_exists.mp
      (boundedLoop_map_some_isSome (gridMaxDocs gq.maxDocs)
        (gridSizeDeg gq.sizeDeg) (parseBBox gq) records ⟨0, []⟩)
    refine ⟨mkSnapshot (gridSizeDeg gq.sizeDeg) st
      (decide (gridMaxDocs gq.maxDocs ≤ (st.scanned : ℚ))), ?_⟩
    simp [coordsGridHandler, hst]

/-- Witness for C6 at the non-positive input `"-3"`. -/
theorem gridSize_clamped_witness :
    (0.005 ≤ gridSizeDeg (some "-3") ∧ gridSizeDeg (some "-3") ≤ 10) ∧
    gridSizeDeg (some "-3") = 1 ∧
    ∃ snap, (coordsGridHandler { sizeDeg := some "-3" }
        (some []) (Engine.mk false [])).1 =
      GridOutcome.ok (gridSizeDeg (some "-3")) snap :=
  ⟨(gridSize_clamped (some "-3")).1,
    (gridSize_clamped (some "-3")).2.1 "-3" rfl
      (Or.inr ⟨-3,
        by simp +decide [jsNumber, trimChars, parseDecimal, parseUnsigned,
          digitsToNat],
        by decide⟩),
    (gridSize_clamped (some "-3")).2.2 { sizeDeg := some "-3" } []
      (Engine.mk false []) rfl⟩

/-- C8: frame property of the on-demand path.  The `/api/coords/grid`
handler leaves the engine — its cache included — exactly as it was, and
its response does not depend on the engine state: it neither reads the
cache into its result nor writes its result into the cache. -/
theorem onDemand_frame (q : GridQuery) (conn : Option (List (Option Record)))
    (e : Engine) :
    (coordsGridHandler q conn e).2 = e ∧
    ∀ e', (coordsGridHandler q conn e).1 = (coordsGridHandler q conn e').1 := by
  constructor
  · cases conn with
    | none => rfl
    | some stream =>
        simp only [coordsGridHandler]
        cases h : boundedLoop (gridMaxDocs q.maxDocs) (gridSizeDeg q.sizeDeg)
          (parseBBox q) stream ⟨0, []⟩ <;> simp [h]
  · intro e'
    cases conn with
    | none => rfl
    | some stream =>
        simp only [coordsGridHandler]
        cases h : boundedLoop (gridMaxDocs q.maxDocs) (gridSizeDeg q.sizeDeg)
          (parseBBox q) stream ⟨0, []⟩ <;> simp [h]

/-- C9: the cache lookup canonicalizes its cell-size parameter.  A
non-finite or non-positive `sizeDeg` is looked up under the default
`0.25`, which the response reports; the lookup key depends only on the
parsed numeric value, so textually different spellings of the same size —
`"0.250"` and `"0.25"` — address the same cache entry. -/
theorem cached_lookup_canonical (e : Engine) :
    (∀ s, jsNumber s = none ∨ (∃ v, jsNumber s = some v ∧ v ≤ 0) →
      cachedKey (some s) = 0.25 ∧
      (cachedHandler (some s) e).sizeDeg = 0.25) ∧
    (∀ s₁ s₂, jsNumber s₁ = jsNumber s₂ →
      cachedHandler (some s₁) e = cachedHandler (some s₂) e) ∧
    cachedKey (some "0.250") = cachedKey (some "0.25") := by
  have hq : jsNumber "0.250" = jsNumber "0.25" := by
    simp +decide [jsNumber, trimChars, parseDecimal, parseUnsigned, digitsToNat]
    norm_num
  refine ⟨?_, ?_, by simp [cachedKey, numOr, hq]⟩
  · intro s h
    have hk : cachedKey (some s) = 0.25 := by
      rcases h with h | ⟨v, hv, hle⟩
      · simp [cachedKey, numOr, h]
      · simp [cachedKey, numOr, hv, not_lt.mpr hle]
    refine ⟨hk, ?_⟩
    simp only [cachedHandler, hk]
    cases cacheGet e.gridCache 0.25 <;> simp [CachedResponse.sizeDeg]
  · intro s₁ s₂ hjs
    have hk : cachedKey (some s₁) = cachedKey (some s₂) := by
      simp [cachedKey, numOr, hjs]
    simp [cachedHandler, hk]

/-- Witness for C9: `"-1"` falls back to `0.25`; `"0.250"` and `"0.25"`
produce the same response. -/
theorem cached_lookup_canonical_witness :
    (cachedKey (some "-1") = 0.25 ∧
      (cachedHandler (some "-1") (Engine.mk false [])).sizeDeg = 0.25) ∧
    cachedHandler (some "0.250") (Engine.mk false []) =
      cachedHandler (some "0.25") (Engine.mk false []) :=
  ⟨(cached_lookup_canonical (Engine.mk false [])).1 "-1"
      (Or.inr ⟨-1,
        by simp +decide [jsNumber, trimChars, parseDecimal, parseUnsigned,
          digitsToNat],
        by decide⟩),
    (cached_lookup_canonical (Engine.mk false [])).2.1 "0.250" "0.25"
      (by simp +decide [jsNumber, trimChars, parseDecimal, parseUnsigned,
        digitsToNat]
          norm_num)⟩

theorem setInsert_nodup (s : List ℕ) (h : ℕ) (hs : s.Nodup) :
    (setInsert s h).Nodup := by
  by_cases hm : h ∈ s
  · simpa [setInsert, hm] using hs
  · simp [setInsert, hm, List.nodup_append, hs]

theorem setInsert_toFinset (s : List ℕ) (h : ℕ) :
    (setInsert s h).toFinset = insert h s.toFinset := by
  by_cases hm : h ∈ s
  · simp [setInsert, hm, Finset.insert_eq_self.mpr (List.mem_toFinset.mpr hm)]
  · simp [setInsert, hm, Finset.union_comm, Finset.insert_eq]

theorem foldl_setInsert_nodup :
    ∀ (l : List ℕ) (s : List ℕ), s.Nodup → (l.foldl setInsert s).Nodup := by
  intro l
  induction l with
  | nil => intro s hs; simpa using hs
  | cons h rest ih =>
      intro s hs
      simpa [List.foldl_cons] using ih (setInsert s h) (setInsert_nodup s h hs)

theorem foldl_setInsert_toFinset :
    ∀ (l : List ℕ) (s : List ℕ),
      (l.foldl setInsert s).toFinset = s.toFinset ∪ l.toFinset := by
  intro l
  induction l with
  | nil => intro s; simp
  | cons h rest ih =>
      intro s
      simp [List.foldl_cons, ih (setInsert s h), setInsert_toFinset,
        Finset.insert_union, Finset.union_insert]

/-- A richness run whose records all land in the one existing cell `c`
folds their hashed identities into that cell's set, scanning them all. -/
theorem richnessLoop_single_cell (hash : String → ℕ) (cap : ℕ) (sizeDeg : ℚ)
    (c : CellKey) :
    ∀ (records : List Record) (n : ℕ) (s : List ℕ),
      n + records.length ≤ cap →
      (∀ r ∈ records, r.lat.isSome ∧ r.lng.isSome) →
      (∀ r ∈ records, ∀ la ∈ r.lat, ∀ ln ∈ r.lng,
        cellKeyFromLatLng sizeDeg la ln = c) →
      (∀ r ∈ records, normalizeIdentity r.scientificName ≠ "") →
      richnessLoop hash cap sizeDeg records ⟨n, [(c, s)]⟩ =
        ⟨n + records.length,
          [(c, records.foldl
            (fun acc r => setInsert acc (hash (normalizeIdentity
              r.scientificName))) s)]⟩ := by
  intro records
  induction records with
  | nil => intro n s _ _ _ _; simp [richnessLoop]
  | cons r rest ih =>
      intro n s hcap hvalid hcell hname
      obtain ⟨la, hla⟩ := Option.isSome_iff_exists.mp
        (hvalid r (List.mem_cons_self _ _)).1
      obtain ⟨ln, hln⟩ := Option.isSome_iff_exists.mp
        (hvalid r (List.mem_cons_self _ _)).2
      have hkey : cellKeyFromLatLng sizeDeg la ln = c :=
        hcell r (List.mem_cons_self _ _) la (by simp [hla]) ln (by simp [hln])
      have hnb : ¬ cap < n + 1 := by
        simp only [List.length_cons] at hcap
        omega
      have hnm := hname r (List.mem_cons_self _ _)
      simp only [richnessLoop, hla, hln, if_neg hnb, if_neg hnm, hkey,
        richInsert, eq_self_iff_true, if_true, List.length_cons,
        List.foldl_cons]
      have := ih (n + 1) (setInsert s (hash (normalizeIdentity
          r.scientificName)))
        (by simp only [List.length_cons] at hcap; omega)
        (fun q hq => hvalid q (List.mem_cons_of_mem _ hq))
        (fun q hq => hcell q (List.mem_cons_of_mem _ hq))
        (fun q hq => hname q (List.mem_cons_of_mem _ hq))
      rw [this]
      have harith : n + 1 + rest.length = n + (rest.length + 1) := by omega
      rw [harith]

theorem list_toFinset_map {α β : Type} [DecidableEq α] [DecidableEq β]
    (f : α → β) (l : List α) : (l.map f).toFinset = l.toFinset.image f := by
  induction l with
  | nil => simp
  | cons a l ih => simp [ih]

/-- C2: richness cardinality.  For a stream whose records all fall in one
cell, with valid coordinates and nonempty normalized identities, and whose
hashed normalized identities do not collide, the richness metric of that
cell equals the number of distinct normalized identities `k` — not the
number of records: each hashed identity is inserted into the per-cell set,
a no-op when already present. -/
theorem richness_distinct_count (hash : String → ℕ) (cap : ℕ) (sizeDeg : ℚ)
    (c : CellKey) (records : List Record)
    (hlen : records.length ≤ cap)
    (hvalid : ∀ r ∈ records, r.lat.isSome ∧ r.lng.isSome)
    (hcell : ∀ r ∈ records, ∀ la ∈ r.lat, ∀ ln ∈ r.lng,
      cellKeyFromLatLng sizeDeg la ln = c)
    (hname : ∀ r ∈ records, normalizeIdentity r.scientificName ≠ "")
    (hinj : ∀ r₁ ∈ records, ∀ r₂ ∈ records,
      hash (normalizeIdentity r₁.scientificName) =
        hash (normalizeIdentity r₂.scientificName) →
      normalizeIdentity r₁.scientificName = normalizeIdentity r₂.scientificName)
    (hne : records ≠ []) :
    ∃ s : List ℕ,
      (richnessLoop hash cap sizeDeg records ⟨0, []⟩).cells = [(c, s)] ∧
      s.length =
        (records.map fun r => normalizeIdentity r.scientificName).toFinset.card := by
  cases records with
  | nil => exact absurd rfl hne
  | cons r rest =>
      obtain ⟨la, hla⟩ := Option.isSome_iff_exists.mp
        (hvalid r (List.mem_cons_self _ _)).1
      obtain ⟨ln, hln⟩ := Option.isSome_iff_exists.mp
        (hvalid r (List.mem_cons_self _ _)).2
      have hkey : cellKeyFromLatLng sizeDeg la ln = c :=
        hcell r (List.mem_cons_self _ _) la (by simp [hla]) ln (by simp [hln])
      have hnb : ¬ cap < 0 + 1 := by
        simp only [List.length_cons] at hlen
        omega
      have hnm := hname r (List.mem_cons_self _ _)
      have hstep :
          richnessLoop hash cap sizeDeg (r :: rest) ⟨0, []⟩ =
            richnessLoop hash cap sizeDeg rest
              ⟨1, [(c, [hash (normalizeIdentity r.scientificName)])]⟩ := by
        simp only [richnessLoop, hla, hln, if_neg hnb, if_neg hnm, hkey,
          richInsert]
      have hrest := richnessLoop_single_cell hash cap sizeDeg c rest 1
        [hash (normalizeIdentity r.scientificName)]
        (by simp only [List.length_cons] at hlen; omega)
        (fun q hq => hvalid q (List.mem_cons_of_mem _ hq))
        (fun q hq => hcell q (List.mem_cons_of_mem _ hq))
        (fun q hq => hname q (List.mem_cons_of_mem _ hq))
      refine ⟨rest.foldl
        (fun acc q => setInsert acc (hash (normalizeIdentity
          q.scientificName))) [hash (normalizeIdentity r.scientificName)],
        ?_, ?_⟩
      · rw [hstep, hrest]
      · have hfold :
            rest.foldl
              (fun acc q => setInsert acc (hash (normalizeIdentity
                q.scientificName))) [hash (normalizeIdentity r.scientificName)] =
            (rest.map fun q => hash (normalizeIdentity
              q.scientificName)).foldl setInsert
              [hash (normalizeIdentity r.scientificName)] := by
          rw [List.foldl_map]
        rw [hfold]
        have hnodup := foldl_setInsert_nodup
          (rest.map fun q => hash (normalizeIdentity q.scientificName))
          [hash (normalizeIdentity r.scientificName)] (by simp)
        rw [← List.toFinset_card_of_nodup hnodup]
        rw [foldl_setInsert_toFinset]
        have hAll :
            ([hash (normalizeIdentity r.scientificName)] : List ℕ).toFinset ∪
              (rest.map fun q => hash (normalizeIdentity
                q.scientificName)).toFinset =
            ((r :: rest).map fun q => hash (normalizeIdentity
              q.scientificName)).toFinset := by
          simp [Finset.insert_eq]
        rw [hAll]
        have hmm :
            ((r :: rest).map fun q => hash (normalizeIdentity
              q.scientificName)) =
            ((r :: rest).map fun q => normalizeIdentity
              q.scientificName).map hash := by
          simp [List.map_map, Function.comp]
        rw [hmm, list_toFinset_map]
        refine Finset.card_image_of_injOn ?_
        intro x hx y hy hxy
        simp only [List.coe_toFinset, Set.mem_setOf_eq, List.mem_map] at hx hy
        obtain ⟨r₁, hr₁, rfl⟩ := hx
        obtain ⟨r₂, hr₂, rfl⟩ := hy
        exact hinj r₁ hr₁ r₂ hr₂ hxy

/-- Witness for C2: two records of one jaguar species — `"Panthera onca"`
and its case variant `"panthera onca"` — in the same `0.25`-degree cell;
the metric is 1, not 2. -/
theorem richness_distinct_count_witness :
    ∃ s : List ℕ,
      (richnessLoop String.length 10 0.25
        ([⟨some (-10.1), some (-50.2), "Panthera onca"⟩,
          ⟨some (-10.05), some (-50.15), "panthera onca"⟩] : List Record)
        ⟨0, []⟩).cells =
        [((319, 519), s)] ∧
      s.length =
        (([⟨some (-10.1), some (-50.2), "Panthera onca"⟩,
          ⟨some (-10.05), some (-50.15), "panthera onca"⟩] : List Record).map
          fun r => normalizeIdentity r.scientificName).toFinset.card := by
  refine richness_distinct_count String.length 10 0.25 (319, 519)
    ([⟨some (-10.1), some (-50.2), "Panthera onca"⟩,
      ⟨some (-10.05), some (-50.15), "panthera onca"⟩] : List Record)
    (by decide) (by decide) ?_ (by decide) (by decide) (by decide)
  intro r hr la hla ln hln
  simp only [List.mem_cons, List.not_mem_nil, or_false] at hr
  rcases hr with rfl | rfl <;>
    · simp only [Option.mem_def, Option.some.injEq] at hla hln
      subst hla
      subst hln
      norm_num [cellKeyFromLatLng]
